import Mathlib

/-!
Shallow embedding of `src/metricity/bot.py` (vcokltfre/metricity).

The Discord client objects (guilds, members, channels, messages) are modelled
as plain structures carrying exactly the fields the handlers read.  The
relational store is modelled as four lists of rows (one per table), kept in
insertion order; the record-store adapter (`metricity/models.py`, not part of
`src/`) is modelled from the spec, see the doc comments on `Category.get`,
`User.create`, etc.  Each event handler of `bot.py` is translated into a pure
function from the store state (and the event payload) to a `Run`: the new
store state, an optional propagated error, and a trace of the observable
actions it performed (gate operations, store reads and writes), in program
order.  Python exceptions (`UniqueViolationError` from asyncpg, and the
`AttributeError` raised by `channel.category.id` when `category` is `None`)
are modelled by the `Err` type.
-/

namespace Metricity

/-- Structure `BotConfig` (from `metricity/config.py`, supplied externally): the fields
`bot.py` reads. -/
structure BotConfig where
  guild_id : Nat
  staff_role_id : Nat
  staff_categories : List Nat
  ignore_categories : List Nat
deriving DecidableEq

/-- A stored `Category` row: `categories(id, name)`. -/
structure DbCategory where
  id : Nat
  name : String
deriving DecidableEq

/-- A stored `Channel` row: `channels(id, name, category_id, is_staff)`. -/
structure DbChannel where
  id : Nat
  name : String
  category_id : Option Nat
  is_staff : Bool
deriving DecidableEq

/-- A stored `User` row:
`users(id, name, avatar_hash, joined_at, created_at, is_staff, bot, opt_out)`. -/
structure DbUser where
  id : Nat
  name : String
  avatar_hash : Option String
  joined_at : Option Nat
  created_at : Nat
  is_staff : Bool
  bot : Bool
  opt_out : Bool
deriving DecidableEq

/-- A stored `Message` row: `messages(id, channel_id, author_id, created_at)`. -/
structure DbMessage where
  id : Nat
  channel_id : Nat
  author_id : Nat
  created_at : Nat
deriving DecidableEq

/-- The relational store: the four tables, rows in insertion order. -/
structure Db where
  categories : List DbCategory
  channels : List DbChannel
  users : List DbUser
  messages : List DbMessage
deriving DecidableEq

/-- Errors a handler can propagate: asyncpg's `UniqueViolationError` and the
`AttributeError` raised by reading `.id` off `None`. -/
inductive Err where
  | uniqueViolation
  | attributeError
deriving DecidableEq

/-- The two module-level `asyncio.Event` gates of `bot.py`. -/
inductive GateId where
  | channelSync
  | syncProcess
deriving DecidableEq

/-- The four tables, for naming store reads/writes in traces. -/
inductive TableId where
  | categories
  | channels
  | users
  | messages
deriving DecidableEq

/-- Observable actions of a handler, in program order. -/
inductive Action where
  | gateClear (g : GateId)
  | gateSet (g : GateId)
  | gateWait (g : GateId)
  | dbRead (t : TableId)
  | dbWrite (t : TableId)
  | upsertChunk (n : Nat)
  | guildCheck (ok : Bool)
deriving DecidableEq

/-- Result of running one handler on one event: the store afterwards, the
error it propagates (if any), and its action trace. -/
structure Run where
  db : Db
  err : Option Err
  trace : List Action
deriving DecidableEq

/-- The kind of a guild channel object, as discriminated by the
`isinstance(channel, CategoryChannel)` / `isinstance(channel, VoiceChannel)`
checks in `bot.py`; `text` stands for every other channel type. -/
inductive ChannelKind where
  | category
  | voice
  | text
deriving DecidableEq

/-- A channel object from the Discord guild; `category` is the id of its
parent category, when it has one (`channel.category`). -/
structure GuildChannel where
  id : Nat
  name : String
  kind : ChannelKind
  category : Option Nat
deriving DecidableEq

/-- A Discord member object, with the guild id it came from
(`member.guild.id`). -/
structure Member where
  id : Nat
  name : String
  avatar : Option String
  joined_at : Option Nat
  created_at : Nat
  roleIds : List Nat
  bot : Bool
  guild_id : Nat
deriving DecidableEq

/-- A Discord guild object: its id, its channel list, its member list. -/
structure Guild where
  id : Nat
  channels : List GuildChannel
  members : List Member
deriving DecidableEq

/-- An inbound Discord message event; `guild` is `none` for a direct message,
`channel_category` is `message.channel.category`'s id when present. -/
structure MessageEvent where
  id : Nat
  guild : Option Nat
  channel_id : Nat
  channel_category : Option Nat
  author_id : Nat
  created_at : Nat
deriving DecidableEq

/-! ### Record store adapter

`metricity/models.py` is not under `src/`; the adapter operations are
modelled from the spec (section 4.1): `get(id)` returns the row with that
primary key or absent; `create` fails with a duplicate-key error when a row
with the same id already exists; `update` rewrites the given fields of the
row in place.  Rows live in lists in insertion order, so a "duplicate row"
is representable and creation appends. -/

/-- Modelled from the spec: `Category.get(id)` — first stored category with
that primary key (`models.py` is not in `src/`). -/
def Category.get (cats : List DbCategory) (i : Nat) : Option DbCategory :=
  cats.find? (fun c => c.id == i)

/-- Modelled from the spec: `Channel.get(id)` (`models.py` is not in `src/`). -/
def Channel.get (chans : List DbChannel) (i : Nat) : Option DbChannel :=
  chans.find? (fun c => c.id == i)

/-- Modelled from the spec: `User.get(id)` (`models.py` is not in `src/`). -/
def User.get (users : List DbUser) (i : Nat) : Option DbUser :=
  users.find? (fun u => u.id == i)

/-- Modelled from the spec: `User.create(...)` fails with a duplicate-key
error when a row with the same id exists, else inserts the row
(`models.py` is not in `src/`). -/
def User.create (users : List DbUser) (u : DbUser) : Except Err (List DbUser) :=
  if (User.get users u.id).isSome then .error .uniqueViolation
  else .ok (users ++ [u])

/-- Modelled from the spec: `Message.create(...)` fails with a duplicate-key
error when a row with the same id exists, else inserts the row
(`models.py` is not in `src/`). -/
def Message.create (msgs : List DbMessage) (m : DbMessage) : Except Err (List DbMessage) :=
  if (msgs.find? (fun x => x.id == m.id)).isSome then .error .uniqueViolation
  else .ok (msgs ++ [m])

/-! ### `sync_channels` (bot.py lines 29-76) -/

/-- One iteration of the first `for channel in guild.channels` loop of
`sync_channels`: categories are upserted by id, only the name is written.
Returns the new `categories` table and the store actions performed. -/
def catStep (cats : List DbCategory) (ch : GuildChannel) :
    List DbCategory × List Action :=
  match ch.kind with
  | .category =>
    match Category.get cats ch.id with
    | some _ =>
      (cats.map (fun c => if c.id == ch.id then { c with name := ch.name } else c),
       [.dbRead .categories, .dbWrite .categories])
    | none =>
      (cats ++ [⟨ch.id, ch.name⟩], [.dbRead .categories, .dbWrite .categories])
  | _ => (cats, [])

/-- The first loop of `sync_channels` (pass 1, categories). -/
def syncCategoriesPass : List GuildChannel → List DbCategory →
    List DbCategory × List Action
  | [], cats => (cats, [])
  | ch :: rest, cats =>
    match catStep cats ch with
    | (cats', tr) =>
      match syncCategoriesPass rest cats' with
      | (catsF, trR) => (catsF, tr ++ trR)

/-- One iteration of the second `for channel in guild.channels` loop of
`sync_channels` (pass 2, channels).  A channel whose parent category is in
the ignore set is skipped; category and voice channels are skipped; for the
rest, `Channel.get` runs first, then the argument
`is_staff=(True if channel.category.id in BotConfig.staff_categories else False)`
is evaluated — when `channel.category` is `None` this raises
`AttributeError` (the `category_id=` argument right above it is guarded by
`if channel.category`, this one is not), so no write happens. -/
def chanStep (cfg : BotConfig) (chans : List DbChannel) (ch : GuildChannel) :
    List DbChannel × Option Err × List Action :=
  if (match ch.category with
      | some c => decide (c ∈ cfg.ignore_categories)
      | none => false) then
    (chans, none, [])
  else
    match ch.kind with
    | .category => (chans, none, [])
    | .voice => (chans, none, [])
    | .text =>
      match Channel.get chans ch.id with
      | some _ =>
        match ch.category with
        | none => (chans, some .attributeError, [.dbRead .channels])
        | some c =>
          (chans.map (fun d => if d.id == ch.id then
              { d with name := ch.name, category_id := some c,
                       is_staff := decide (c ∈ cfg.staff_categories) } else d),
           none, [.dbRead .channels, .dbWrite .channels])
      | none =>
        match ch.category with
        | none => (chans, some .attributeError, [.dbRead .channels])
        | some c =>
          (chans ++ [⟨ch.id, ch.name, some c, decide (c ∈ cfg.staff_categories)⟩],
           none, [.dbRead .channels, .dbWrite .channels])

/-- The second loop of `sync_channels` (pass 2, channels).  A raised
exception aborts the loop and propagates, leaving the writes made so far in
place. -/
def syncChannelsPass (cfg : BotConfig) : List GuildChannel → List DbChannel →
    List DbChannel × Option Err × List Action
  | [], chans => (chans, none, [])
  | ch :: rest, chans =>
    match chanStep cfg chans ch with
    | (chans', none, tr) =>
      match syncChannelsPass cfg rest chans' with
      | (chansF, e, trR) => (chansF, e, tr ++ trR)
    | (chans', some e, tr) => (chans', some e, tr)

/-- Handler `sync_channels(guild)`: clears the `channel_sync_in_progress` gate, runs
pass 1 then pass 2, and sets the gate again — unless pass 2 raised, in which
case the exception propagates before `channel_sync_in_progress.set()` and
the gate stays cleared. -/
def sync_channels (cfg : BotConfig) (g : Guild) (db : Db) : Run :=
  match syncCategoriesPass g.channels db.categories with
  | (cats, tr1) =>
    match syncChannelsPass cfg g.channels db.channels with
    | (chans, e, tr2) =>
      { db := { db with categories := cats, channels := chans }
        err := e
        trace := .gateClear .channelSync ::
          (tr1 ++ tr2 ++ (match e with
            | none => [.gateSet .channelSync]
            | some _ => [])) }

/-! ### `gen_chunks` (bot.py lines 79-85) -/

/-- Generator `gen_chunks(chunk_src, chunk_size)`: successive `chunk_size`-sized slices
`chunk_src[i:i+chunk_size]` for `i in range(0, len(chunk_src), chunk_size)`.
(Python's `range` raises for step 0; the `chunk_size = 0` guard exists only
for termination and is never exercised — `bot.py` always passes 2500.) -/
def gen_chunks (chunk_src : List α) (chunk_size : Nat) : List (List α) :=
  if _h : chunk_src.length = 0 ∨ chunk_size = 0 then []
  else chunk_src.take chunk_size :: gen_chunks (chunk_src.drop chunk_size) chunk_size
termination_by chunk_src.length
decreasing_by
  push_neg at _h
  simp only [List.length_drop]
  exact Nat.sub_lt (Nat.pos_of_ne_zero _h.1) (Nat.pos_of_ne_zero _h.2)

/-! ### member handlers (bot.py lines 151-220) -/

/-- The check `BotConfig.staff_role_id in [role.id for role in member.roles]`. -/
def memberIsStaff (cfg : BotConfig) (m : Member) : Bool :=
  decide (cfg.staff_role_id ∈ m.roleIds)

/-- The row written for a member by `User.create` in `on_member_join` /
`on_member_update`.  The handlers pass no `bot`/`opt_out` keyword; those
columns take their defaults — modelled from the spec: `opt_out` defaults to
false (section 6), `bot` likewise defaults (`models.py` is not in `src/`). -/
def memberUser (cfg : BotConfig) (m : Member) : DbUser :=
  { id := m.id
    name := m.name
    avatar_hash := m.avatar
    joined_at := m.joined_at
    created_at := m.created_at
    is_staff := memberIsStaff cfg m
    bot := false
    opt_out := false }

/-- The `db_user.update(id=..., name=..., avatar_hash=..., joined_at=...,
created_at=..., is_staff=...)` write shared by `on_member_join` and
`on_member_update`: rewrites exactly those fields of the row with the
member's id; `bot` and `opt_out` are untouched. -/
def applyMemberWrite (cfg : BotConfig) (users : List DbUser) (m : Member) :
    List DbUser :=
  users.map (fun u => if u.id == m.id then
    { u with name := m.name, avatar_hash := m.avatar, joined_at := m.joined_at,
             created_at := m.created_at, is_staff := memberIsStaff cfg m }
    else u)

/-- The `try: await User.create(...) except UniqueViolationError: pass` block
shared by `on_member_join` and `on_member_update`: a duplicate-key failure is
swallowed, any other error would propagate. -/
def tolerant_user_create (users : List DbUser) (u : DbUser) :
    Except Err (List DbUser) :=
  match User.create users u with
  | .ok users' => .ok users'
  | .error .uniqueViolation => .ok users
  | .error e => .error e

/-- Handler `on_member_join(member)`: waits on `sync_process_complete`, discards
events from other guilds, then updates the existing row or runs the
collision-tolerant create. -/
def on_member_join (cfg : BotConfig) (db : Db) (m : Member) : Run :=
  if m.guild_id == cfg.guild_id then
    match User.get db.users m.id with
    | some _ =>
      { db := { db with users := applyMemberWrite cfg db.users m }
        err := none
        trace := [.gateWait .syncProcess, .guildCheck true, .dbRead .users,
                  .dbWrite .users] }
    | none =>
      match tolerant_user_create db.users (memberUser cfg m) with
      | .ok users' =>
        { db := { db with users := users' }
          err := none
          trace := [.gateWait .syncProcess, .guildCheck true, .dbRead .users,
                    .dbWrite .users] }
      | .error e =>
        { db := db
          err := some e
          trace := [.gateWait .syncProcess, .guildCheck true, .dbRead .users] }
  else { db := db, err := none, trace := [.gateWait .syncProcess, .guildCheck false] }

/-- In Python, `a in b != c` is the chained comparison `(a in b) and (b != c)`.
In the condition of `on_member_update`, `b` is the role-id list and `c` the
stored boolean `db_user.is_staff` — values of different types, so `b != c`
is always `True`. -/
def pyRolesNeBool (_roles : List Nat) (_b : Bool) : Bool := true

/-- The condition of `on_member_update` (bot.py lines 195-200), exactly as
the Python parses:
`db_user.name != member.name or db_user.avatar_hash != member.avatar or
(staff_role_id in [role.id ...]) and ([role.id ...] != db_user.is_staff)`. -/
def member_update_write_condition (cfg : BotConfig) (db_user : DbUser)
    (m : Member) : Bool :=
  db_user.name != m.name || db_user.avatar_hash != m.avatar ||
    (memberIsStaff cfg m && pyRolesNeBool m.roleIds db_user.is_staff)

/-- Handler `on_member_update(_before, member)`: waits on `sync_process_complete`,
discards other guilds, returns early when `member.joined_at` is null,
otherwise writes the row only when `member_update_write_condition` holds,
falling back to the collision-tolerant create when no row exists. -/
def on_member_update (cfg : BotConfig) (db : Db) (m : Member) : Run :=
  if m.guild_id == cfg.guild_id then
    match m.joined_at with
    | none =>
      { db := db, err := none, trace := [.gateWait .syncProcess, .guildCheck true] }
    | some _ =>
      match User.get db.users m.id with
      | some db_user =>
        if member_update_write_condition cfg db_user m then
          { db := { db with users := applyMemberWrite cfg db.users m }
            err := none
            trace := [.gateWait .syncProcess, .guildCheck true, .dbRead .users,
                      .dbWrite .users] }
        else
          { db := db
            err := none
            trace := [.gateWait .syncProcess, .guildCheck true, .dbRead .users] }
      | none =>
        match tolerant_user_create db.users (memberUser cfg m) with
        | .ok users' =>
          { db := { db with users := users' }
            err := none
            trace := [.gateWait .syncProcess, .guildCheck true, .dbRead .users,
                      .dbWrite .users] }
        | .error e =>
          { db := db
            err := some e
            trace := [.gateWait .syncProcess, .guildCheck true, .dbRead .users] }
  else { db := db, err := none, trace := [.gateWait .syncProcess, .guildCheck false] }

/-! ### `on_guild_available` (bot.py lines 113-148) -/

/-- The roster row built for each `user in guild.members`. -/
structure UserRow where
  id : Nat
  name : String
  avatar_hash : Option String
  joined_at : Option Nat
  created_at : Nat
  is_staff : Bool
  bot : Bool
deriving DecidableEq

/-- The dict appended to `users` for one member in `on_guild_available`. -/
def memberRow (cfg : BotConfig) (m : Member) : UserRow :=
  { id := m.id
    name := m.name
    avatar_hash := m.avatar
    joined_at := m.joined_at
    created_at := m.created_at
    is_staff := memberIsStaff cfg m
    bot := m.bot }

/-- Modelled from the spec: one row of `User.bulk_upsert` — insert-or-replace
keyed by id (section 4.1); a replaced row keeps its `opt_out`, a fresh row
gets the default `opt_out = false` (`models.py` is not in `src/`). -/
def upsertRow (users : List DbUser) (r : UserRow) : List DbUser :=
  match User.get users r.id with
  | some _ =>
    users.map (fun u => if u.id == r.id then
      { u with name := r.name, avatar_hash := r.avatar_hash,
               joined_at := r.joined_at, created_at := r.created_at,
               is_staff := r.is_staff, bot := r.bot }
      else u)
  | none =>
    users ++ [{ id := r.id, name := r.name, avatar_hash := r.avatar_hash,
                joined_at := r.joined_at, created_at := r.created_at,
                is_staff := r.is_staff, bot := r.bot, opt_out := false }]

/-- Modelled from the spec: `User.bulk_upsert(chunk)` upserts each row of the
chunk in order (`models.py` is not in `src/`). -/
def bulk_upsert (users : List DbUser) (rows : List UserRow) : List DbUser :=
  rows.foldl upsertRow users

/-- Handler `on_guild_available(guild)`: discards other guilds, runs `sync_channels`
(whose exception would propagate, skipping everything below), builds the
roster, upserts it in chunks of 2500 via `gen_chunks`, then sets
`sync_process_complete`. -/
def on_guild_available (cfg : BotConfig) (g : Guild) (db : Db) : Run :=
  if g.id == cfg.guild_id then
    match sync_channels cfg g db with
    | s =>
      match s.err with
      | some e => { db := s.db, err := some e, trace := .guildCheck true :: s.trace }
      | none =>
        match gen_chunks (g.members.map (memberRow cfg)) 2500 with
        | user_chunks =>
          { db := { s.db with users := user_chunks.foldl bulk_upsert s.db.users }
            err := none
            trace := .guildCheck true :: s.trace ++
              user_chunks.map (fun c => .upsertChunk c.length) ++
              [.gateSet .syncProcess] }
  else { db := db, err := none, trace := [.guildCheck false] }

/-! ### `on_message` (bot.py lines 223-250) -/

/-- Handler `on_message(message)`: returns at once for a direct message, discards
other guilds, waits on `channel_sync_in_progress`, discards unknown or
opted-out authors and ignored categories (`cat_id in
BotConfig.ignore_categories` is `False` when `cat_id` is `None` — `None` is
never an element of a list of ints), then creates the Message row; a
duplicate-key failure is not caught and propagates. -/
def on_message (cfg : BotConfig) (db : Db) (msg : MessageEvent) : Run :=
  match msg.guild with
  | none => { db := db, err := none, trace := [] }
  | some gid =>
    if gid == cfg.guild_id then
      match User.get db.users msg.author_id with
      | some author =>
        if author.opt_out then
          { db := db, err := none
            trace := [.guildCheck true, .gateWait .channelSync, .dbRead .users] }
        else
          if (match msg.channel_category with
              | some c => decide (c ∈ cfg.ignore_categories)
              | none => false) then
            { db := db, err := none
              trace := [.guildCheck true, .gateWait .channelSync, .dbRead .users] }
          else
            match Message.create db.messages
                ⟨msg.id, msg.channel_id, msg.author_id, msg.created_at⟩ with
            | .ok msgs' =>
              { db := { db with messages := msgs' }
                err := none
                trace := [.guildCheck true, .gateWait .channelSync, .dbRead .users,
                          .dbWrite .messages] }
            | .error e =>
              { db := db
                err := some e
                trace := [.guildCheck true, .gateWait .channelSync, .dbRead .users] }
      | none =>
        { db := db, err := none
          trace := [.guildCheck true, .gateWait .channelSync, .dbRead .users] }
    else { db := db, err := none, trace := [.guildCheck false] }

/-- The filtering rules of `on_message`, collected: the event is from the
configured guild, the author has a stored row whose `opt_out` is false, and
the channel's category id is not in the ignore set (a missing category is
never in it). -/
def messageAccepted (cfg : BotConfig) (db : Db) (msg : MessageEvent) : Bool :=
  (msg.guild == some cfg.guild_id) &&
  (match User.get db.users msg.author_id with
   | some a => !a.opt_out
   | none => false) &&
  !(match msg.channel_category with
    | some c => decide (c ∈ cfg.ignore_categories)
    | none => false)

/-! ### Example configuration and store used by concrete instances -/

/-- Example configuration: guild 1, staff role 99, staff category 5,
ignored category 7. -/
def cfgA : BotConfig := ⟨1, 99, [5], [7]⟩

/-- Example store: one category, one channel, two users (id 4 opted out),
one message. -/
def dbA : Db :=
  { categories := [⟨5, "staffcat"⟩]
    channels := [⟨20, "general", some 5, true⟩]
    users := [⟨3, "alice", some "av", some 10, 2, true, false, false⟩,
              ⟨4, "optout", none, some 11, 2, false, false, true⟩]
    messages := [⟨100, 20, 3, 50⟩] }

/-- Store reads and writes, as opposed to gate operations and guild checks:
these are the actions a sync run's two passes are made of. -/
def isStoreAct : Action → Bool
  | .dbRead _ => true
  | .dbWrite _ => true
  | _ => false

/-- Example guild with an empty channel list and a roster of 3000 identical
members. -/
def guildBig : Guild :=
  ⟨1, [], List.replicate 3000 ⟨2, "u", none, some 1, 1, [], false, 1⟩⟩

/-- Example guild for the synchronizer: a staff category, an ignored
category, a known text channel, an ignored text channel, a voice channel,
and a new text channel. -/
def guildB : Guild :=
  ⟨1, [⟨5, "staff", .category, none⟩, ⟨7, "ign", .category, none⟩,
       ⟨20, "general", .text, some 5⟩, ⟨21, "hidden", .text, some 7⟩,
       ⟨22, "talk", .voice, some 5⟩, ⟨25, "new", .text, some 5⟩], []⟩

/-! ### Helper lemmas -/

/-- A list never equals itself extended by one element. -/
theorem self_eq_append_singleton_iff (l : List α) (x : α) :
    (l = l ++ [x]) ↔ False := by
  constructor
  · intro h
    have := congrArg List.length h
    simp at this
  · exact False.elim

/-- A found element makes the filtered sublist nonempty. -/
theorem filter_length_pos_of_find? {p : α → Bool} {l : List α} {a : α}
    (h : l.find? p = some a) : 0 < (l.filter p).length := by
  have hm : a ∈ l := List.mem_of_find?_eq_some h
  have hp : p a := List.find?_some h
  have : a ∈ l.filter p := List.mem_filter.mpr ⟨hm, hp⟩
  exact List.length_pos.mpr (List.ne_nil_of_mem this)

/-- If nothing matches, the filtered sublist is empty. -/
theorem filter_eq_nil_of_find?_none {p : α → Bool} {l : List α}
    (h : l.find? p = none) : l.filter p = [] := by
  rw [List.find?_eq_none] at h
  induction l with
  | nil => rfl
  | cons a t ih =>
    have ha : ¬ p a := h a (List.mem_cons_self a t)
    simp only [List.filter_cons, if_neg ha]
    exact ih (fun x hx => h x (List.mem_cons_of_mem a hx))

/-- Mapping a pointwise-identity function is the identity. -/
theorem map_id_of_mem {α : Type} (l : List α) (f : α → α)
    (h : ∀ x ∈ l, f x = x) : l.map f = l := by
  induction l with
  | nil => rfl
  | cons a t ih =>
    rw [List.map_cons, h a (List.mem_cons_self a t),
      ih (fun x hx => h x (List.mem_cons_of_mem a hx))]

/-- Function `find?` commutes with a map that preserves the predicate. -/
theorem find?_map_pres {α : Type} (p : α → Bool) (f : α → α)
    (hp : ∀ x, p (f x) = p x) (l : List α) :
    (l.map f).find? p = (l.find? p).map f := by
  rw [List.find?_map]
  have hpf : p ∘ f = p := funext hp
  rw [hpf]

/-- A list whose keyed `find?` fails holds no element with that key. -/
theorem not_mem_keys_of_find?_none {ρ : Type} (k : ρ → Nat) (i : Nat)
    (l : List ρ) (h : l.find? (fun x => k x == i) = none) : i ∉ l.map k := by
  rw [List.find?_eq_none] at h
  intro hmem
  obtain ⟨x, hx, hkx⟩ := List.mem_map.mp hmem
  exact h x hx (by simp [hkx])

/-- Mapping a key-preserving function leaves the key list unchanged. -/
theorem map_keys_pres {ρ : Type} (k : ρ → Nat) (f : ρ → ρ)
    (hk : ∀ x, k (f x) = k x) (l : List ρ) : (l.map f).map k = l.map k := by
  rw [List.map_map]
  have hkf : k ∘ f = k := funext hk
  rw [hkf]

/-- Updating the uniquely-keyed row to the value it already has is the
identity. -/
theorem map_update_self {ρ : Type} (k : ρ → Nat) (g : ρ → ρ) (i : Nat)
    (l : List ρ) (t : ρ) (hnd : (l.map k).Nodup)
    (hf : l.find? (fun x => k x == i) = some t) (hg : g t = t) :
    l.map (fun x => if k x == i then g x else x) = l := by
  induction l with
  | nil => simp at hf
  | cons a rest ih =>
    rw [List.map_cons] at hnd
    rcases List.find?_cons_eq_some.mp hf with ⟨hpa, hat⟩ | ⟨hpa, hfr⟩
    · subst hat
      have ha : (k a == i) = true := by simpa using hpa
      have h1 : (if (k a == i) = true then g a else a) = a := by rw [if_pos ha, hg]
      have hai : k a = i := by simpa using ha
      have htail : ∀ x ∈ rest, (if (k x == i) = true then g x else x) = x := by
        intro x hx
        have hna : k a ∉ rest.map k := (List.nodup_cons.mp hnd).1
        have hkx : k x ≠ i := fun hxi =>
          hna (List.mem_map.mpr ⟨x, hx, hxi.trans hai.symm⟩)
        rw [if_neg (by simpa using hkx)]
      rw [List.map_cons, h1, map_id_of_mem rest _ htail]
    · have ha : (k a == i) = false := by simpa using hpa
      rw [List.map_cons, if_neg (by simp [ha]),
        ih (List.nodup_cons.mp hnd).2 hfr]

/-! ### Pass-1 (categories) idempotence lemmas -/

/-- Step `catStep` on a non-category channel does nothing. -/
theorem catStep_skip (cats : List DbCategory) (ch : GuildChannel)
    (h : ch.kind ≠ .category) : catStep cats ch = (cats, []) := by
  unfold catStep
  cases hk : ch.kind with
  | category => exact absurd hk h
  | voice => rfl
  | text => rfl

/-- The pointwise update in `catStep` preserves the row id. -/
theorem catUpdate_id (ch : GuildChannel) (x : DbCategory) :
    (if x.id == ch.id then { x with name := ch.name } else x).id = x.id := by
  cases hx : (x.id == ch.id) <;> simp

/-- After `catStep` on a category channel, the stored row under the
channel's id is exactly the incoming id and name. -/
theorem catStep_find_self (cats : List DbCategory) (ch : GuildChannel)
    (hk : ch.kind = .category) :
    Category.get (catStep cats ch).1 ch.id = some ⟨ch.id, ch.name⟩ := by
  unfold catStep
  rw [hk]
  cases hget : Category.get cats ch.id with
  | some c =>
    dsimp only
    unfold Category.get
    have hp : ∀ x : DbCategory,
        ((if x.id == ch.id then { x with name := ch.name } else x).id == ch.id) =
        (x.id == ch.id) := by
      intro x
      rw [catUpdate_id]
    rw [find?_map_pres _ _ hp]
    unfold Category.get at hget
    rw [hget]
    have hcid : c.id = ch.id := by
      have := List.find?_some hget
      simpa using this
    cases c with
    | mk cid cname =>
      simp only [Option.map_some']
      simp at hcid
      simp [hcid]
  | none =>
    dsimp only
    unfold Category.get
    rw [List.find?_append]
    unfold Category.get at hget
    rw [hget]
    simp

/-- Step `catStep` leaves every row under a different key untouched. -/
theorem catStep_find_frame (cats : List DbCategory) (ch : GuildChannel)
    (i : Nat) (h : ch.id ≠ i) :
    Category.get (catStep cats ch).1 i = Category.get cats i := by
  unfold catStep
  cases hk : ch.kind with
  | voice => rfl
  | text => rfl
  | category =>
    cases hget : Category.get cats ch.id with
    | some c =>
      dsimp only
      unfold Category.get
      have hp : ∀ x : DbCategory,
          ((if x.id == ch.id then { x with name := ch.name } else x).id == i) =
          (x.id == i) := by
        intro x
        rw [catUpdate_id]
      rw [find?_map_pres _ _ hp]
      cases hfi : cats.find? (fun x => x.id == i) with
      | none => rfl
      | some c0 =>
        have hc0 : c0.id = i := by
          have := List.find?_some hfi
          simpa using this
        have hne : (c0.id == ch.id) = false := by
          simp only [beq_eq_false_iff_ne]
          rw [hc0]
          exact fun hh => h hh.symm
        simp only [Option.map_some']
        rw [if_neg (by simp [hne])]
    | none =>
      dsimp only
      unfold Category.get
      rw [List.find?_append]
      have hne : ((ch.id : Nat) == i) = false := by
        simp only [beq_eq_false_iff_ne]
        exact h
      simp [hne]

/-- Step `catStep` preserves distinctness of stored category ids. -/
theorem catStep_nodup (cats : List DbCategory) (ch : GuildChannel)
    (hnd : (cats.map (fun c => c.id)).Nodup) :
    ((catStep cats ch).1.map (fun c => c.id)).Nodup := by
  unfold catStep
  cases hk : ch.kind with
  | voice => exact hnd
  | text => exact hnd
  | category =>
    cases hget : Category.get cats ch.id with
    | some c =>
      dsimp only
      rw [map_keys_pres _ _ (catUpdate_id ch)]
      exact hnd
    | none =>
      dsimp only
      rw [List.map_append]
      unfold Category.get at hget
      have hni : ch.id ∉ cats.map (fun c => c.id) :=
        not_mem_keys_of_find?_none _ _ _ hget
      rw [List.nodup_append]
      refine ⟨hnd, List.nodup_singleton _, ?_⟩
      intro a ha1 ha2
      simp only [List.map_cons, List.map_nil, List.mem_singleton] at ha2
      subst ha2
      exact hni ha1

/-- When the stored row already equals the incoming one, `catStep` leaves
the table unchanged. -/
theorem catStep_write_self (cats : List DbCategory) (ch : GuildChannel)
    (hk : ch.kind = .category)
    (hnd : (cats.map (fun c => c.id)).Nodup)
    (hf : Category.get cats ch.id = some ⟨ch.id, ch.name⟩) :
    (catStep cats ch).1 = cats := by
  unfold catStep
  rw [hk, hf]
  dsimp only
  unfold Category.get at hf
  exact map_update_self (fun c => c.id) (fun c => { c with name := ch.name })
    ch.id cats ⟨ch.id, ch.name⟩ hnd hf rfl

/-- Unfolding pass 1 one channel at a time (table component). -/
theorem pass1_cons (ch : GuildChannel) (l : List GuildChannel)
    (cats : List DbCategory) :
    (syncCategoriesPass (ch :: l) cats).1 =
      (syncCategoriesPass l (catStep cats ch).1).1 := by
  rcases hs : catStep cats ch with ⟨cats', tr⟩
  rcases hr : syncCategoriesPass l cats' with ⟨catsF, trR⟩
  simp only [syncCategoriesPass, hs, hr]

/-- Pass 1 preserves distinctness of stored category ids. -/
theorem pass1_nodup (l : List GuildChannel) (cats : List DbCategory)
    (hnd : (cats.map (fun c => c.id)).Nodup) :
    ((syncCategoriesPass l cats).1.map (fun c => c.id)).Nodup := by
  induction l generalizing cats with
  | nil => exact hnd
  | cons ch t ih =>
    rw [pass1_cons]
    exact ih _ (catStep_nodup cats ch hnd)

/-- Pass 1 leaves rows under keys not named by the channel list untouched. -/
theorem pass1_frame (l : List GuildChannel) (cats : List DbCategory)
    (i : Nat) (h : ∀ ch ∈ l, ch.id ≠ i) :
    Category.get (syncCategoriesPass l cats).1 i = Category.get cats i := by
  induction l generalizing cats with
  | nil => rfl
  | cons ch t ih =>
    rw [pass1_cons, ih _ (fun c hc => h c (List.mem_cons_of_mem ch hc)),
      catStep_find_frame cats ch i (h ch (List.mem_cons_self ch t))]

/-- Running pass 1 a second time over its own output changes nothing. -/
theorem pass1_idem (l : List GuildChannel) (cats : List DbCategory)
    (hnd : (cats.map (fun c => c.id)).Nodup)
    (hl : (l.map (fun ch => ch.id)).Nodup) :
    (syncCategoriesPass l (syncCategoriesPass l cats).1).1 =
      (syncCategoriesPass l cats).1 := by
  induction l generalizing cats with
  | nil => rfl
  | cons ch t ih =>
    rw [List.map_cons] at hl
    obtain ⟨hch, hl'⟩ := List.nodup_cons.mp hl
    cases hk : ch.kind with
    | category =>
      rw [pass1_cons ch t cats]
      rw [pass1_cons ch t]
      have hnds : (((catStep cats ch).1).map (fun c => c.id)).Nodup :=
        catStep_nodup cats ch hnd
      have hndF : (((syncCategoriesPass t (catStep cats ch).1).1).map
          (fun c => c.id)).Nodup := pass1_nodup _ _ hnds
      have hids : ∀ x ∈ t, x.id ≠ ch.id := by
        intro x hx hxi
        exact hch (List.mem_map.mpr ⟨x, hx, hxi⟩)
      have hfind : Category.get (syncCategoriesPass t (catStep cats ch).1).1 ch.id =
          some ⟨ch.id, ch.name⟩ := by
        rw [pass1_frame t _ ch.id hids]
        exact catStep_find_self cats ch hk
      rw [catStep_write_self _ ch hk hndF hfind]
      exact ih _ hnds hl'
    | voice =>
      have hskip : ∀ st : List DbCategory, (catStep st ch).1 = st := by
        intro st
        rw [catStep_skip st ch (by simp [hk])]
      rw [pass1_cons ch t cats, hskip cats, pass1_cons ch t, hskip]
      exact ih _ hnd hl'
    | text =>
      have hskip : ∀ st : List DbCategory, (catStep st ch).1 = st := by
        intro st
        rw [catStep_skip st ch (by simp [hk])]
      rw [pass1_cons ch t cats, hskip cats, pass1_cons ch t, hskip]
      exact ih _ hnd hl'

/-! ### Pass-2 (channels) idempotence lemmas -/

/-- The pointwise update in `chanStep` preserves the row id. -/
theorem chanUpdate_id (cfg : BotConfig) (ch : GuildChannel) (c : Nat)
    (x : DbChannel) :
    (if x.id == ch.id then
      { x with name := ch.name, category_id := some c,
               is_staff := decide (c ∈ cfg.staff_categories) }
     else x).id = x.id := by
  cases hx : (x.id == ch.id) <;> simp

/-- Step `chanStep` on a category or voice channel does nothing. -/
theorem chanStep_skip_kind (cfg : BotConfig) (chans : List DbChannel)
    (ch : GuildChannel) (h : ch.kind = .category ∨ ch.kind = .voice) :
    chanStep cfg chans ch = (chans, none, []) := by
  unfold chanStep
  split
  · rfl
  · rcases h with h | h <;> rw [h]

/-- Step `chanStep` on a channel in an ignored category does nothing. -/
theorem chanStep_skip_ignored (cfg : BotConfig) (chans : List DbChannel)
    (ch : GuildChannel) (c : Nat) (hc : ch.category = some c)
    (hig : c ∈ cfg.ignore_categories) :
    chanStep cfg chans ch = (chans, none, []) := by
  unfold chanStep
  simp only [hc]
  rw [if_pos (by simp [hig])]

/-- Step `chanStep` on a text channel with no parent category reads the stored
row, then raises before writing. -/
theorem chanStep_fail (cfg : BotConfig) (chans : List DbChannel)
    (ch : GuildChannel) (hk : ch.kind = .text) (hc : ch.category = none) :
    chanStep cfg chans ch = (chans, some .attributeError, [.dbRead .channels]) := by
  cases hget : Channel.get chans ch.id <;> simp [chanStep, hk, hc, hget]

/-- A text channel with a non-ignored parent category synchronises without
error. -/
theorem chanStep_write_err (cfg : BotConfig) (chans : List DbChannel)
    (ch : GuildChannel) (c : Nat) (hk : ch.kind = .text)
    (hc : ch.category = some c) (hig : c ∉ cfg.ignore_categories) :
    (chanStep cfg chans ch).2.1 = none := by
  cases hget : Channel.get chans ch.id <;> simp [chanStep, hk, hc, hig, hget]

/-- After a write step, the stored row under the channel's id is exactly
the derived one. -/
theorem chanStep_write_find_self (cfg : BotConfig) (chans : List DbChannel)
    (ch : GuildChannel) (c : Nat) (hk : ch.kind = .text)
    (hc : ch.category = some c) (hig : c ∉ cfg.ignore_categories) :
    Channel.get (chanStep cfg chans ch).1 ch.id =
      some ⟨ch.id, ch.name, some c, decide (c ∈ cfg.staff_categories)⟩ := by
  cases hget : Channel.get chans ch.id with
  | some d =>
    have hstate : (chanStep cfg chans ch).1 =
        chans.map (fun x => if x.id == ch.id then
          { x with name := ch.name, category_id := some c,
                   is_staff := decide (c ∈ cfg.staff_categories) }
          else x) := by
      simp [chanStep, hk, hc, hig, hget]
    rw [hstate]
    unfold Channel.get
    rw [find?_map_pres _ _ (fun x => by rw [chanUpdate_id])]
    unfold Channel.get at hget
    rw [hget]
    have hcid : d.id = ch.id := by
      have := List.find?_some hget
      simpa using this
    cases d with
    | mk did dname dcat dstaff =>
      simp only [Option.map_some']
      simp at hcid
      simp [hcid]
  | none =>
    have hstate : (chanStep cfg chans ch).1 =
        chans ++ [⟨ch.id, ch.name, some c, decide (c ∈ cfg.staff_categories)⟩] := by
      simp [chanStep, hk, hc, hig, hget]
    rw [hstate]
    unfold Channel.get
    rw [List.find?_append]
    unfold Channel.get at hget
    rw [hget]
    simp

/-- Step `chanStep` leaves every row under a different key untouched. -/
theorem chanStep_frame (cfg : BotConfig) (chans : List DbChannel)
    (ch : GuildChannel) (i : Nat) (h : ch.id ≠ i) :
    Channel.get (chanStep cfg chans ch).1 i = Channel.get chans i := by
  unfold chanStep
  split
  · rfl
  · cases hk : ch.kind with
    | category => rfl
    | voice => rfl
    | text =>
      cases hget : Channel.get chans ch.id with
      | some d =>
        cases hcat : ch.category with
        | none => rfl
        | some c =>
          dsimp only
          unfold Channel.get
          rw [find?_map_pres _ _ (fun x => by rw [chanUpdate_id])]
          cases hfi : chans.find? (fun x => x.id == i) with
          | none => rfl
          | some c0 =>
            have hc0 : c0.id = i := by
              have := List.find?_some hfi
              simpa using this
            have hne : (c0.id == ch.id) = false := by
              simp only [beq_eq_false_iff_ne]
              rw [hc0]
              exact fun hh => h hh.symm
            simp only [Option.map_some']
            rw [if_neg (by simp [hne])]
      | none =>
        cases hcat : ch.category with
        | none => rfl
        | some c =>
          dsimp only
          unfold Channel.get
          rw [List.find?_append]
          have hne : ((ch.id : Nat) == i) = false := by
            simp only [beq_eq_false_iff_ne]
            exact h
          simp [hne]

/-- Step `chanStep` preserves distinctness of stored channel ids. -/
theorem chanStep_nodup (cfg : BotConfig) (chans : List DbChannel)
    (ch : GuildChannel) (hnd : (chans.map (fun d => d.id)).Nodup) :
    ((chanStep cfg chans ch).1.map (fun d => d.id)).Nodup := by
  unfold chanStep
  split
  · exact hnd
  · cases hk : ch.kind with
    | category => exact hnd
    | voice => exact hnd
    | text =>
      cases hget : Channel.get chans ch.id with
      | some d =>
        cases hcat : ch.category with
        | none => exact hnd
        | some c =>
          dsimp only
          rw [map_keys_pres _ _ (fun x => by rw [chanUpdate_id])]
          exact hnd
      | none =>
        cases hcat : ch.category with
        | none => exact hnd
        | some c =>
          dsimp only
          rw [List.map_append]
          unfold Channel.get at hget
          have hni : ch.id ∉ chans.map (fun d => d.id) :=
            not_mem_keys_of_find?_none _ _ _ hget
          rw [List.nodup_append]
          refine ⟨hnd, List.nodup_singleton _, ?_⟩
          intro a ha1 ha2
          simp only [List.map_cons, List.map_nil, List.mem_singleton] at ha2
          subst ha2
          exact hni ha1

/-- When the stored row already equals the derived one, a write step leaves
the table unchanged. -/
theorem chanStep_write_self (cfg : BotConfig) (chans : List DbChannel)
    (ch : GuildChannel) (c : Nat) (hk : ch.kind = .text)
    (hc : ch.category = some c) (hig : c ∉ cfg.ignore_categories)
    (hnd : (chans.map (fun d => d.id)).Nodup)
    (hf : Channel.get chans ch.id =
      some ⟨ch.id, ch.name, some c, decide (c ∈ cfg.staff_categories)⟩) :
    (chanStep cfg chans ch).1 = chans := by
  have hstate : (chanStep cfg chans ch).1 =
      chans.map (fun x => if x.id == ch.id then
        { x with name := ch.name, category_id := some c,
                 is_staff := decide (c ∈ cfg.staff_categories) }
        else x) := by
    simp [chanStep, hk, hc, hig, hf]
  rw [hstate]
  unfold Channel.get at hf
  exact map_update_self (fun d => d.id)
    (fun x => { x with name := ch.name, category_id := some c,
                       is_staff := decide (c ∈ cfg.staff_categories) })
    ch.id chans ⟨ch.id, ch.name, some c, decide (c ∈ cfg.staff_categories)⟩
    hnd hf rfl

/-- Unfolding pass 2 one channel at a time, when the step succeeds. -/
theorem pass2_cons_ok (cfg : BotConfig) (ch : GuildChannel)
    (l : List GuildChannel) (chans : List DbChannel)
    (h : (chanStep cfg chans ch).2.1 = none) :
    (syncChannelsPass cfg (ch :: l) chans).1 =
      (syncChannelsPass cfg l (chanStep cfg chans ch).1).1 ∧
    (syncChannelsPass cfg (ch :: l) chans).2.1 =
      (syncChannelsPass cfg l (chanStep cfg chans ch).1).2.1 := by
  rcases hs : chanStep cfg chans ch with ⟨chans', e, tr⟩
  rw [hs] at h
  have he : e = none := h
  subst he
  rcases hr : syncChannelsPass cfg l chans' with ⟨chansF, eF, trR⟩
  constructor <;> simp only [syncChannelsPass, hs, hr]

/-- Unfolding pass 2 one channel at a time, when the step raises: the loop
aborts with the step's state and error. -/
theorem pass2_cons_err (cfg : BotConfig) (ch : GuildChannel)
    (l : List GuildChannel) (chans : List DbChannel) (e : Err)
    (h : (chanStep cfg chans ch).2.1 = some e) :
    syncChannelsPass cfg (ch :: l) chans =
      ((chanStep cfg chans ch).1, some e, (chanStep cfg chans ch).2.2) := by
  rcases hs : chanStep cfg chans ch with ⟨chans', e', tr⟩
  rw [hs] at h
  have he : e' = some e := h
  subst he
  simp only [syncChannelsPass, hs]

/-- Pass 2 preserves distinctness of stored channel ids. -/
theorem pass2_nodup (cfg : BotConfig) (l : List GuildChannel)
    (chans : List DbChannel) (hnd : (chans.map (fun d => d.id)).Nodup) :
    ((syncChannelsPass cfg l chans).1.map (fun d => d.id)).Nodup := by
  induction l generalizing chans with
  | nil => exact hnd
  | cons ch t ih =>
    cases he : (chanStep cfg chans ch).2.1 with
    | none =>
      rw [(pass2_cons_ok cfg ch t chans he).1]
      exact ih _ (chanStep_nodup cfg chans ch hnd)
    | some e =>
      rw [pass2_cons_err cfg ch t chans e he]
      exact chanStep_nodup cfg chans ch hnd

/-- Pass 2 leaves rows under keys not named by the channel list untouched. -/
theorem pass2_frame (cfg : BotConfig) (l : List GuildChannel)
    (chans : List DbChannel) (i : Nat) (h : ∀ ch ∈ l, ch.id ≠ i) :
    Channel.get (syncChannelsPass cfg l chans).1 i = Channel.get chans i := by
  induction l generalizing chans with
  | nil => rfl
  | cons ch t ih =>
    cases he : (chanStep cfg chans ch).2.1 with
    | none =>
      rw [(pass2_cons_ok cfg ch t chans he).1,
        ih _ (fun x hx => h x (List.mem_cons_of_mem ch hx)),
        chanStep_frame cfg chans ch i (h ch (List.mem_cons_self ch t))]
    | some e =>
      rw [pass2_cons_err cfg ch t chans e he]
      exact chanStep_frame cfg chans ch i (h ch (List.mem_cons_self ch t))

/-- Running pass 2 a second time over its own output changes neither the
stored table nor the raised error. -/
theorem pass2_idem (cfg : BotConfig) (l : List GuildChannel)
    (chans : List DbChannel) (hnd : (chans.map (fun d => d.id)).Nodup)
    (hl : (l.map (fun ch => ch.id)).Nodup) :
    (syncChannelsPass cfg l (syncChannelsPass cfg l chans).1).1 =
      (syncChannelsPass cfg l chans).1 ∧
    (syncChannelsPass cfg l (syncChannelsPass cfg l chans).1).2.1 =
      (syncChannelsPass cfg l chans).2.1 := by
  induction l generalizing chans with
  | nil => exact ⟨rfl, rfl⟩
  | cons ch t ih =>
    rw [List.map_cons] at hl
    obtain ⟨hch, hl'⟩ := List.nodup_cons.mp hl
    have hids : ∀ x ∈ t, x.id ≠ ch.id := by
      intro x hx hxi
      exact hch (List.mem_map.mpr ⟨x, hx, hxi⟩)
    by_cases hsk : ch.kind = .category ∨ ch.kind = .voice
    · have hskip : ∀ st : List DbChannel, chanStep cfg st ch = (st, none, []) :=
        fun st => chanStep_skip_kind cfg st ch hsk
      have hcons1 := pass2_cons_ok cfg ch t chans (by rw [hskip chans])
      rw [hcons1.1, hcons1.2, hskip chans]
      have hcons2 := pass2_cons_ok cfg ch t
        (syncChannelsPass cfg t chans).1 (by rw [hskip])
      rw [hcons2.1, hcons2.2, hskip]
      exact ih _ hnd hl'
    · have hk : ch.kind = .text := by
        cases hkk : ch.kind with
        | category => exact absurd (Or.inl hkk) hsk
        | voice => exact absurd (Or.inr hkk) hsk
        | text => rfl
      cases hc : ch.category with
      | none =>
        have hfail : ∀ st : List DbChannel,
            chanStep cfg st ch = (st, some .attributeError, [.dbRead .channels]) :=
          fun st => chanStep_fail cfg st ch hk hc
        have hcons1 := pass2_cons_err cfg ch t chans .attributeError
          (by rw [hfail chans])
        rw [hcons1]
        have hcons2 := pass2_cons_err cfg ch t chans .attributeError
          (by rw [hfail chans])
        rw [hfail chans]
        rw [hcons2, hfail chans]
        exact ⟨rfl, rfl⟩
      | some c =>
        by_cases hig : c ∈ cfg.ignore_categories
        · have hskip : ∀ st : List DbChannel, chanStep cfg st ch = (st, none, []) :=
            fun st => chanStep_skip_ignored cfg st ch c hc hig
          have hcons1 := pass2_cons_ok cfg ch t chans (by rw [hskip chans])
          rw [hcons1.1, hcons1.2, hskip chans]
          have hcons2 := pass2_cons_ok cfg ch t
            (syncChannelsPass cfg t chans).1 (by rw [hskip])
          rw [hcons2.1, hcons2.2, hskip]
          exact ih _ hnd hl'
        · have he1 : (chanStep cfg chans ch).2.1 = none :=
            chanStep_write_err cfg chans ch c hk hc hig
          have hcons1 := pass2_cons_ok cfg ch t chans he1
          have hnds : (((chanStep cfg chans ch).1).map (fun d => d.id)).Nodup :=
            chanStep_nodup cfg chans ch hnd
          have hndF : (((syncChannelsPass cfg t (chanStep cfg chans ch).1).1).map
              (fun d => d.id)).Nodup := pass2_nodup cfg t _ hnds
          have hfindF : Channel.get
              (syncChannelsPass cfg t (chanStep cfg chans ch).1).1 ch.id =
              some ⟨ch.id, ch.name, some c, decide (c ∈ cfg.staff_categories)⟩ := by
            rw [pass2_frame cfg t _ ch.id hids]
            exact chanStep_write_find_self cfg chans ch c hk hc hig
          have heF : (chanStep cfg
              (syncChannelsPass cfg t (chanStep cfg chans ch).1).1 ch).2.1 = none :=
            chanStep_write_err cfg _ ch c hk hc hig
          have hselfF : (chanStep cfg
              (syncChannelsPass cfg t (chanStep cfg chans ch).1).1 ch).1 =
              (syncChannelsPass cfg t (chanStep cfg chans ch).1).1 :=
            chanStep_write_self cfg _ ch c hk hc hig hndF hfindF
          have hcons2 := pass2_cons_ok cfg ch t
            (syncChannelsPass cfg t (chanStep cfg chans ch).1).1 heF
          rw [hcons1.1, hcons1.2, hcons2.1, hcons2.2, hselfF]
          exact ih _ hnds hl'

/-- Function `gen_chunks` concatenates back to the input list. -/
theorem gen_chunks_flatten (n : Nat) (hn : 0 < n) (l : List α) :
    (gen_chunks l n).flatten = l := by
  generalize hk : l.length = k
  induction k using Nat.strong_induction_on generalizing l with
  | _ k ih =>
    by_cases hz : l.length = 0
    · rw [gen_chunks, dif_pos (Or.inl hz)]
      simp [List.length_eq_zero.mp hz]
    · rw [gen_chunks, dif_neg (by push_neg; exact ⟨hz, by omega⟩)]
      have hdrop : (l.drop n).length < k := by
        rw [List.length_drop]; omega
      rw [List.flatten_cons, ih _ hdrop (l.drop n) rfl]
      exact List.take_append_drop n l

/-- Every chunk `gen_chunks` yields is nonempty and no longer than the chunk
size. -/
theorem gen_chunks_chunk_size (n : Nat) (hn : 0 < n) (l : List α) :
    ∀ c ∈ gen_chunks l n, c ≠ [] ∧ c.length ≤ n := by
  generalize hk : l.length = k
  induction k using Nat.strong_induction_on generalizing l with
  | _ k ih =>
    by_cases hz : l.length = 0
    · rw [gen_chunks, dif_pos (Or.inl hz)]
      intro c hc
      exact absurd hc (List.not_mem_nil c)
    · rw [gen_chunks, dif_neg (by push_neg; exact ⟨hz, by omega⟩)]
      intro c hc
      rcases List.mem_cons.mp hc with hc | hc
      · subst hc
        constructor
        · intro hnil
          have h0 := congrArg List.length hnil
          rw [List.length_take] at h0
          simp only [List.length_nil] at h0
          rcases Nat.min_eq_zero_iff.mp h0 with h | h <;> omega
        · simp [List.length_take]
      · have hdrop : (l.drop n).length < k := by
          rw [List.length_drop]; omega
        exact ih _ hdrop (l.drop n) rfl c hc

/-- Every chunk except possibly the last has exactly the chunk size. -/
theorem gen_chunks_full (n : Nat) (hn : 0 < n) (l : List α) :
    ∀ c ∈ (gen_chunks l n).dropLast, c.length = n := by
  generalize hk : l.length = k
  induction k using Nat.strong_induction_on generalizing l with
  | _ k ih =>
    by_cases hz : l.length = 0
    · rw [gen_chunks, dif_pos (Or.inl hz)]
      intro c hc
      exact absurd hc (List.not_mem_nil c)
    · rw [gen_chunks, dif_neg (by push_neg; exact ⟨hz, by omega⟩)]
      intro c hc
      cases hrest : gen_chunks (l.drop n) n with
      | nil => rw [hrest] at hc; exact absurd hc (List.not_mem_nil c)
      | cons c2 t2 =>
        rw [hrest, List.dropLast_cons₂] at hc
        have hlen : ¬ (l.drop n).length = 0 := by
          intro h0
          rw [gen_chunks, dif_pos (Or.inl h0)] at hrest
          exact List.noConfusion hrest
        rcases List.mem_cons.mp hc with hc | hc
        · subst hc
          rw [List.length_take]
          rw [List.length_drop] at hlen
          exact Nat.min_eq_left (by omega)
        · have hdrop : (l.drop n).length < k := by
            rw [List.length_drop]; omega
          have := ih _ hdrop (l.drop n) rfl c
          rw [hrest] at this
          exact this hc

/-- A 3000-element list splits into chunks of 2500 and 500. -/
theorem gen_chunks_3000 (l : List α) (hl : l.length = 3000) :
    (gen_chunks l 2500).map List.length = [2500, 500] := by
  have h1 : ¬ (l.length = 0 ∨ (2500 : Nat) = 0) := by omega
  have h2 : ¬ ((l.drop 2500).length = 0 ∨ (2500 : Nat) = 0) := by
    simp only [List.length_drop]; omega
  have h3 : ((l.drop 2500).drop 2500).length = 0 := by
    simp only [List.length_drop]; omega
  rw [gen_chunks, dif_neg h1, gen_chunks, dif_neg h2, gen_chunks,
    dif_pos (Or.inl h3)]
  simp [List.length_take, List.length_drop, hl]

/-- Pass 1 emits only store reads and writes. -/
theorem catStep_trace_store (cats : List DbCategory) (ch : GuildChannel) :
    ∀ a ∈ (catStep cats ch).2, isStoreAct a = true := by
  unfold catStep
  cases ch.kind with
  | category =>
    cases Category.get cats ch.id with
    | some c =>
      intro a ha
      simp only [List.mem_cons, List.not_mem_nil, or_false] at ha
      rcases ha with rfl | rfl <;> rfl
    | none =>
      intro a ha
      simp only [List.mem_cons, List.not_mem_nil, or_false] at ha
      rcases ha with rfl | rfl <;> rfl
  | voice => intro a ha; exact absurd ha (List.not_mem_nil a)
  | text => intro a ha; exact absurd ha (List.not_mem_nil a)

/-- The whole of pass 1 emits only store reads and writes. -/
theorem pass1_trace_store (l : List GuildChannel) (cats : List DbCategory) :
    ∀ a ∈ (syncCategoriesPass l cats).2, isStoreAct a = true := by
  induction l generalizing cats with
  | nil => intro a ha; exact absurd ha (List.not_mem_nil a)
  | cons ch rest ih =>
    rcases hstep : catStep cats ch with ⟨cats', tr⟩
    rcases hrec : syncCategoriesPass rest cats' with ⟨catsF, trR⟩
    intro a ha
    simp only [syncCategoriesPass, hstep, hrec] at ha
    rcases List.mem_append.mp ha with h | h
    · have := catStep_trace_store cats ch a
      rw [hstep] at this
      exact this h
    · have := ih cats' a
      rw [hrec] at this
      exact this h

/-- Pass 2 emits only store reads and writes. -/
theorem chanStep_trace_store (cfg : BotConfig) (chans : List DbChannel)
    (ch : GuildChannel) : ∀ a ∈ (chanStep cfg chans ch).2.2, isStoreAct a = true := by
  unfold chanStep
  split
  · intro a ha; exact absurd ha (List.not_mem_nil a)
  · cases ch.kind with
    | category => intro a ha; exact absurd ha (List.not_mem_nil a)
    | voice => intro a ha; exact absurd ha (List.not_mem_nil a)
    | text =>
      cases Channel.get chans ch.id with
      | some c =>
        cases ch.category with
        | none =>
          intro a ha
          simp only [List.mem_cons, List.not_mem_nil, or_false] at ha
          subst ha
          rfl
        | some cc =>
          intro a ha
          simp only [List.mem_cons, List.not_mem_nil, or_false] at ha
          rcases ha with rfl | rfl <;> rfl
      | none =>
        cases ch.category with
        | none =>
          intro a ha
          simp only [List.mem_cons, List.not_mem_nil, or_false] at ha
          subst ha
          rfl
        | some cc =>
          intro a ha
          simp only [List.mem_cons, List.not_mem_nil, or_false] at ha
          rcases ha with rfl | rfl <;> rfl

/-- The whole of pass 2 emits only store reads and writes. -/
theorem pass2_trace_store (cfg : BotConfig) (l : List GuildChannel)
    (chans : List DbChannel) :
    ∀ a ∈ (syncChannelsPass cfg l chans).2.2, isStoreAct a = true := by
  induction l generalizing chans with
  | nil => intro a ha; exact absurd ha (List.not_mem_nil a)
  | cons ch rest ih =>
    rcases hstep : chanStep cfg chans ch with ⟨chans', e, tr⟩
    intro a ha
    cases e with
    | none =>
      rcases hrec : syncChannelsPass cfg rest chans' with ⟨chansF, eF, trR⟩
      simp only [syncChannelsPass, hstep, hrec] at ha
      rcases List.mem_append.mp ha with h | h
      · have := chanStep_trace_store cfg chans ch a
        rw [hstep] at this
        exact this h
      · have := ih chans' a
        rw [hrec] at this
        exact this h
    | some e =>
      simp only [syncChannelsPass, hstep] at ha
      have := chanStep_trace_store cfg chans ch a
      rw [hstep] at this
      exact this ha

/-! ### Claim theorems -/

/-- C8: running `sync_channels` twice in sequence on the same topology (with
distinct channel ids, over a well-keyed store) leaves the stored Category
and Channel state identical to running it once, and raises the same error
(or none) as the first run. -/
theorem sync_channels_idempotent (cfg : BotConfig) (g : Guild) (db : Db)
    (hg : (g.channels.map (fun ch => ch.id)).Nodup)
    (hcat : (db.categories.map (fun c => c.id)).Nodup)
    (hchan : (db.channels.map (fun d => d.id)).Nodup) :
    (sync_channels cfg g (sync_channels cfg g db).db).db =
      (sync_channels cfg g db).db ∧
    (sync_channels cfg g (sync_channels cfg g db).db).err =
      (sync_channels cfg g db).err := by
  rcases h1 : syncCategoriesPass g.channels db.categories with ⟨cats1, tr1⟩
  rcases h2 : syncChannelsPass cfg g.channels db.channels with ⟨chans1, e1, tr2⟩
  rcases h1' : syncCategoriesPass g.channels cats1 with ⟨cats2, tr1'⟩
  rcases h2' : syncChannelsPass cfg g.channels chans1 with ⟨chans2, e2, tr2'⟩
  have hc2 : cats2 = cats1 := by
    have hidem := pass1_idem g.channels db.categories hcat hg
    rw [h1] at hidem
    rw [h1'] at hidem
    exact hidem
  have hch2 : chans2 = chans1 ∧ e2 = e1 := by
    have hidem := pass2_idem cfg g.channels db.channels hchan hg
    rw [h2] at hidem
    rw [h2'] at hidem
    exact hidem
  obtain ⟨hcc, hee⟩ := hch2
  simp only [sync_channels, h1, h2, h1', h2']
  constructor
  · simp [hc2, hcc]
  · simp [hee]

/-- Witness for C8 on the example guild and store. -/
theorem sync_channels_idempotent_witness :
    (guildB.channels.map (fun ch => ch.id)).Nodup ∧
    (dbA.categories.map (fun c => c.id)).Nodup ∧
    (dbA.channels.map (fun d => d.id)).Nodup ∧
    ((sync_channels cfgA guildB (sync_channels cfgA guildB dbA).db).db =
        (sync_channels cfgA guildB dbA).db ∧
      (sync_channels cfgA guildB (sync_channels cfgA guildB dbA).db).err =
        (sync_channels cfgA guildB dbA).err) :=
  ⟨by decide, by decide, by decide,
   sync_channels_idempotent cfgA guildB dbA (by decide) (by decide) (by decide)⟩

/-- C9: a member-profile-update event from the configured guild that carries
no join timestamp is ignored: the handler performs no store read or write,
raises no error, and leaves the store unchanged. -/
theorem on_member_update_missing_joined_at (cfg : BotConfig) (db : Db)
    (m : Member) (hg : m.guild_id = cfg.guild_id) (hj : m.joined_at = none) :
    on_member_update cfg db m =
      { db := db, err := none,
        trace := [.gateWait .syncProcess, .guildCheck true] } := by
  simp [on_member_update, hg, hj]

/-- Witness for C9 at a concrete event. -/
theorem on_member_update_missing_joined_at_witness :
    (⟨9, "m", none, none, 1, [], false, 1⟩ : Member).guild_id = cfgA.guild_id ∧
    (⟨9, "m", none, none, 1, [], false, 1⟩ : Member).joined_at = none ∧
    on_member_update cfgA dbA ⟨9, "m", none, none, 1, [], false, 1⟩ =
      { db := dbA, err := none,
        trace := [.gateWait .syncProcess, .guildCheck true] } :=
  ⟨rfl, rfl, on_member_update_missing_joined_at cfgA dbA _ rfl rfl⟩

/-- C10: a message event carrying no guild (a direct message) returns
immediately: no gate wait, no store read or write, no error, store
unchanged. -/
theorem on_message_direct_message (cfg : BotConfig) (db : Db)
    (msg : MessageEvent) (h : msg.guild = none) :
    on_message cfg db msg = { db := db, err := none, trace := [] } := by
  simp [on_message, h]

/-- Witness for C10 at a concrete direct message. -/
theorem on_message_direct_message_witness :
    (⟨200, none, 20, none, 3, 60⟩ : MessageEvent).guild = none ∧
    on_message cfgA dbA ⟨200, none, 20, none, 3, 60⟩ =
      { db := dbA, err := none, trace := [] } :=
  ⟨rfl, on_message_direct_message cfgA dbA _ rfl⟩

/-- C2: evaluating `sync_channels` on a topology containing a text channel
with no parent category.  Pass 2 does not complete and stores nothing for
that channel: the unguarded `channel.category.id` in the `is_staff` argument
raises `AttributeError`, which propagates (the claim says the pass completes
and stores a row with null category and `is_staff = false`). -/
theorem sync_channels_null_category_error :
    (sync_channels cfgA ⟨1, [⟨30, "no-category", .text, none⟩], []⟩ dbA).err =
        some .attributeError ∧
    (sync_channels cfgA ⟨1, [⟨30, "no-category", .text, none⟩], []⟩ dbA).db.channels =
        dbA.channels := by
  decide

/-- C1: the condition of `on_member_update` is the Python chained comparison
`staff_role_id in roles != db_user.is_staff`, i.e.
`(staff_role_id in roles) and (roles != is_staff)` with the second conjunct
always true.  First scenario: stored name, avatar hash and staff flag all
equal the incoming values, yet because the member holds the staff role a
write is issued.  Second scenario: the staff flag differs (stored true,
member no longer staff) with name and avatar equal, yet no write is
issued. -/
theorem on_member_update_chained_comparison_bug :
    (User.get dbA.users 3 =
        some ⟨3, "alice", some "av", some 10, 2, true, false, false⟩) ∧
    memberIsStaff cfgA ⟨3, "alice", some "av", some 10, 2, [99], false, 1⟩ = true ∧
    Action.dbWrite .users ∈
      (on_member_update cfgA dbA
        ⟨3, "alice", some "av", some 10, 2, [99], false, 1⟩).trace ∧
    memberIsStaff cfgA ⟨3, "alice", some "av", some 10, 2, [], false, 1⟩ = false ∧
    Action.dbWrite .users ∉
      (on_member_update cfgA dbA
        ⟨3, "alice", some "av", some 10, 2, [], false, 1⟩).trace := by
  decide

/-- C6: when no user row exists, `on_member_join` (and `on_member_update`
with a join timestamp) attempts a create and succeeds; and the shared
collision-tolerant create block never propagates a duplicate-key failure
and leaves exactly one row for the id, for any store contents at create
time (in particular one where a concurrent writer already inserted the
id). -/
theorem member_create_collision_tolerant (cfg : BotConfig) (db : Db)
    (m : Member) (users : List DbUser) (u : DbUser)
    (hg : m.guild_id = cfg.guild_id)
    (hnone : User.get db.users m.id = none)
    (hj : m.joined_at ≠ none)
    (hcount : (users.filter (fun x => x.id == u.id)).length ≤ 1) :
    (∃ users', tolerant_user_create users u = .ok users' ∧
        (users'.filter (fun x => x.id == u.id)).length = 1) ∧
    (on_member_join cfg db m).err = none ∧
    (on_member_join cfg db m).db.users = db.users ++ [memberUser cfg m] ∧
    (on_member_update cfg db m).err = none ∧
    (on_member_update cfg db m).db.users = db.users ++ [memberUser cfg m] := by
  have hgetm : User.get db.users (memberUser cfg m).id = none := hnone
  refine ⟨?_, ?_⟩
  · unfold tolerant_user_create User.create
    cases hfound : User.get users u.id with
    | some a =>
      refine ⟨users, by simp [hfound], ?_⟩
      have h1 : 0 < (users.filter (fun x => x.id == u.id)).length :=
        filter_length_pos_of_find? hfound
      omega
    | none =>
      refine ⟨users ++ [u], by simp [hfound], ?_⟩
      rw [List.filter_append, filter_eq_nil_of_find?_none hfound]
      simp
  · obtain ⟨t, ht⟩ := Option.ne_none_iff_exists'.mp hj
    constructor
    · simp [on_member_join, hg, hnone, tolerant_user_create, User.create, hgetm]
    constructor
    · simp [on_member_join, hg, hnone, tolerant_user_create, User.create, hgetm]
    constructor
    · simp [on_member_update, hg, ht, hnone, tolerant_user_create, User.create, hgetm]
    · simp [on_member_update, hg, ht, hnone, tolerant_user_create, User.create, hgetm]

/-- Witness for C6: member id 8 is absent from the example store, and the
create-time store already holds a row with id 7. -/
theorem member_create_collision_tolerant_witness :
    (⟨8, "bob", none, some 5, 3, [], false, 1⟩ : Member).guild_id = cfgA.guild_id ∧
    User.get dbA.users 8 = none ∧
    (⟨8, "bob", none, some 5, 3, [], false, 1⟩ : Member).joined_at ≠ none ∧
    (([⟨7, "old", none, none, 0, false, false, false⟩] :
        List DbUser).filter (fun x => x.id == 7)).length ≤ 1 ∧
    ((∃ users', tolerant_user_create
          [⟨7, "old", none, none, 0, false, false, false⟩]
          ⟨7, "new", none, some 5, 3, false, false, false⟩ = .ok users' ∧
        (users'.filter (fun x => x.id == 7)).length = 1) ∧
      (on_member_join cfgA dbA ⟨8, "bob", none, some 5, 3, [], false, 1⟩).err = none ∧
      (on_member_join cfgA dbA ⟨8, "bob", none, some 5, 3, [], false, 1⟩).db.users =
        dbA.users ++ [memberUser cfgA ⟨8, "bob", none, some 5, 3, [], false, 1⟩] ∧
      (on_member_update cfgA dbA ⟨8, "bob", none, some 5, 3, [], false, 1⟩).err = none ∧
      (on_member_update cfgA dbA ⟨8, "bob", none, some 5, 3, [], false, 1⟩).db.users =
        dbA.users ++ [memberUser cfgA ⟨8, "bob", none, some 5, 3, [], false, 1⟩]) :=
  ⟨rfl, rfl, by decide, by decide,
   member_create_collision_tolerant cfgA dbA _ _
     ⟨7, "new", none, some 5, 3, false, false, false⟩ rfl rfl (by decide) (by decide)⟩

/-- C3: assuming the event's message id is not already stored (the platform
guarantees unique message ids), `on_message` appends a Message row if and
only if the event is from the configured guild, the author has a stored row
with `opt_out` false, and the channel's category is not in the ignore set;
in every other case the store is left untouched. -/
theorem on_message_records_iff (cfg : BotConfig) (db : Db) (msg : MessageEvent)
    (hfresh : db.messages.find? (fun x => x.id == msg.id) = none) :
    ((on_message cfg db msg).db.messages =
        db.messages ++ [⟨msg.id, msg.channel_id, msg.author_id, msg.created_at⟩]
      ↔ messageAccepted cfg db msg = true) ∧
    (messageAccepted cfg db msg = false → (on_message cfg db msg).db = db) := by
  have hfreshSome : (db.messages.find? (fun x => x.id == msg.id)).isSome = false := by
    rw [hfresh]; rfl
  unfold on_message messageAccepted Message.create
  cases hmg : msg.guild with
  | none => simp [self_eq_append_singleton_iff]
  | some gid =>
    by_cases hid : gid = cfg.guild_id
    · subst hid
      cases hfind : User.get db.users msg.author_id with
      | none => simp [hfind, self_eq_append_singleton_iff]
      | some a =>
        cases hopt : a.opt_out with
        | true => simp [hfind, hopt, self_eq_append_singleton_iff]
        | false =>
          cases hig : (match msg.channel_category with
                       | some c => decide (c ∈ cfg.ignore_categories)
                       | none => false) with
          | true => simp [hfind, hopt, hig, self_eq_append_singleton_iff]
          | false => simp [hfind, hopt, hig, hfreshSome]
    · have : (gid == cfg.guild_id) = false := by simp [hid]
      simp [this, self_eq_append_singleton_iff, hid]

/-- Witness for C3: a fresh message id, at an accepted event. -/
theorem on_message_records_iff_witness :
    dbA.messages.find?
      (fun x => x.id == (⟨101, some 1, 20, some 5, 3, 61⟩ : MessageEvent).id) = none ∧
    (((on_message cfgA dbA ⟨101, some 1, 20, some 5, 3, 61⟩).db.messages =
        dbA.messages ++ [⟨101, 20, 3, 61⟩]
      ↔ messageAccepted cfgA dbA ⟨101, some 1, 20, some 5, 3, 61⟩ = true) ∧
     (messageAccepted cfgA dbA ⟨101, some 1, 20, some 5, 3, 61⟩ = false →
        (on_message cfgA dbA ⟨101, some 1, 20, some 5, 3, 61⟩).db = dbA)) :=
  ⟨by decide, on_message_records_iff cfgA dbA _ (by decide)⟩

/-- C4: every `sync_channels` run clears the channel-topology gate as its
first action and sets it only as its last action, after all store actions of
both passes — and not at all when pass 2 raises; and `on_message`, once the
target-server check passes, waits on that gate before any store action. -/
theorem gate_ordering (cfg : BotConfig) (g : Guild) (db : Db)
    (msg : MessageEvent) (hm : msg.guild = some cfg.guild_id) :
    (∃ body, (sync_channels cfg g db).trace =
        .gateClear .channelSync :: body ++
          (match (sync_channels cfg g db).err with
           | none => [.gateSet .channelSync]
           | some _ => []) ∧
      ∀ a ∈ body, isStoreAct a = true) ∧
    (∃ rest, (on_message cfg db msg).trace =
        .guildCheck true :: .gateWait .channelSync :: rest ∧
      ∀ a ∈ rest, isStoreAct a = true) := by
  constructor
  · rcases h1 : syncCategoriesPass g.channels db.categories with ⟨cats, tr1⟩
    rcases h2 : syncChannelsPass cfg g.channels db.channels with ⟨chans, e, tr2⟩
    refine ⟨tr1 ++ tr2, ?_, ?_⟩
    · simp only [sync_channels, h1, h2]
      simp [List.append_assoc]
    · intro a ha
      rcases List.mem_append.mp ha with h | h
      · have := pass1_trace_store g.channels db.categories a
        rw [h1] at this
        exact this h
      · have := pass2_trace_store cfg g.channels db.channels a
        rw [h2] at this
        exact this h
  · have hOnlyStore1 : ∀ a ∈ ([.dbRead .users] : List Action), isStoreAct a = true := by
      intro a ha
      simp only [List.mem_cons, List.not_mem_nil, or_false] at ha
      subst ha
      rfl
    cases hfind : User.get db.users msg.author_id with
    | none => exact ⟨[.dbRead .users], by simp [on_message, hm, hfind], hOnlyStore1⟩
    | some author =>
      cases hopt : author.opt_out with
      | true => exact ⟨[.dbRead .users], by simp [on_message, hm, hfind, hopt], hOnlyStore1⟩
      | false =>
        cases hig : (match msg.channel_category with
                     | some c => decide (c ∈ cfg.ignore_categories)
                     | none => false) with
        | true =>
          exact ⟨[.dbRead .users], by simp [on_message, hm, hfind, hopt, hig],
            hOnlyStore1⟩
        | false =>
          cases hcr : Message.create db.messages
              ⟨msg.id, msg.channel_id, msg.author_id, msg.created_at⟩ with
          | ok msgs' =>
            refine ⟨[.dbRead .users, .dbWrite .messages],
              by simp [on_message, hm, hfind, hopt, hig, hcr], ?_⟩
            intro a ha
            simp only [List.mem_cons, List.not_mem_nil, or_false] at ha
            rcases ha with rfl | rfl <;> rfl
          | error e =>
            exact ⟨[.dbRead .users],
              by simp [on_message, hm, hfind, hopt, hig, hcr], hOnlyStore1⟩

/-- Witness for C4 at concrete inputs. -/
theorem gate_ordering_witness :
    (⟨101, some 1, 20, some 5, 3, 61⟩ : MessageEvent).guild = some cfgA.guild_id ∧
    ((∃ body, (sync_channels cfgA guildBig dbA).trace =
        .gateClear .channelSync :: body ++
          (match (sync_channels cfgA guildBig dbA).err with
           | none => [.gateSet .channelSync]
           | some _ => []) ∧
      ∀ a ∈ body, isStoreAct a = true) ∧
    (∃ rest, (on_message cfgA dbA ⟨101, some 1, 20, some 5, 3, 61⟩).trace =
        .guildCheck true :: .gateWait .channelSync :: rest ∧
      ∀ a ∈ rest, isStoreAct a = true)) :=
  ⟨rfl, gate_ordering cfgA guildBig dbA _ rfl⟩

/-- C5: `gen_chunks` splits any roster into successive chunks whose
concatenation is the input, each nonempty and at most 2500 long, all but
possibly the last exactly 2500; and on a guild of 3000 members whose channel
sync succeeds, `on_guild_available` performs exactly two chunk upserts, of
2500 and 500 rows, and sets the `sync_process_complete` gate only after
both. -/
theorem bulk_bootstrap_chunking (cfg : BotConfig) (g : Guild) (db : Db)
    (hg : g.id = cfg.guild_id)
    (hsync : (sync_channels cfg g db).err = none)
    (hn : g.members.length = 3000) :
    (∀ rows : List UserRow, (gen_chunks rows 2500).flatten = rows ∧
      (∀ c ∈ gen_chunks rows 2500, c ≠ [] ∧ c.length ≤ 2500) ∧
      (∀ c ∈ (gen_chunks rows 2500).dropLast, c.length = 2500)) ∧
    (gen_chunks (g.members.map (memberRow cfg)) 2500).map List.length =
      [2500, 500] ∧
    (on_guild_available cfg g db).trace =
      .guildCheck true :: (sync_channels cfg g db).trace ++
        [.upsertChunk 2500, .upsertChunk 500, .gateSet .syncProcess] := by
  have hml : (gen_chunks (g.members.map (memberRow cfg)) 2500).map List.length =
      [2500, 500] :=
    gen_chunks_3000 _ (by rw [List.length_map, hn])
  refine ⟨fun rows => ⟨gen_chunks_flatten 2500 (by omega) rows,
    gen_chunks_chunk_size 2500 (by omega) rows,
    gen_chunks_full 2500 (by omega) rows⟩, hml, ?_⟩
  have hchunks : (gen_chunks (g.members.map (memberRow cfg)) 2500).map
      (fun c => Action.upsertChunk c.length) =
      [.upsertChunk 2500, .upsertChunk 500] := by
    have : (gen_chunks (g.members.map (memberRow cfg)) 2500).map
        (fun c => Action.upsertChunk c.length) =
        ((gen_chunks (g.members.map (memberRow cfg)) 2500).map
          List.length).map Action.upsertChunk := by
      rw [List.map_map]; rfl
    rw [this, hml]
    rfl
  simp only [on_guild_available, hg, beq_self_eq_true, if_true, hsync, hchunks]
  simp

/-- Witness for C5 on the 3000-member example guild. -/
theorem bulk_bootstrap_chunking_witness :
    guildBig.id = cfgA.guild_id ∧
    (sync_channels cfgA guildBig dbA).err = none ∧
    guildBig.members.length = 3000 ∧
    ((∀ rows : List UserRow, (gen_chunks rows 2500).flatten = rows ∧
        (∀ c ∈ gen_chunks rows 2500, c ≠ [] ∧ c.length ≤ 2500) ∧
        (∀ c ∈ (gen_chunks rows 2500).dropLast, c.length = 2500)) ∧
      (gen_chunks (guildBig.members.map (memberRow cfgA)) 2500).map List.length =
        [2500, 500] ∧
      (on_guild_available cfgA guildBig dbA).trace =
        .guildCheck true :: (sync_channels cfgA guildBig dbA).trace ++
          [.upsertChunk 2500, .upsertChunk 500, .gateSet .syncProcess]) :=
  ⟨rfl, rfl, by simp only [guildBig, List.length_replicate],
   bulk_bootstrap_chunking cfgA guildBig dbA rfl rfl
     (by simp only [guildBig, List.length_replicate])⟩

/-- C7: when every filter passes but a message row with the event's id
already exists, the duplicate-key failure from `Message.create` is not
caught: `on_message` propagates it and writes nothing. -/
theorem message_create_not_collision_tolerant (cfg : BotConfig) (db : Db)
    (msg : MessageEvent)
    (hg : msg.guild = some cfg.guild_id)
    (ha : ∃ a, User.get db.users msg.author_id = some a ∧ a.opt_out = false)
    (hc : (match msg.channel_category with
           | some c => decide (c ∈ cfg.ignore_categories)
           | none => false) = false)
    (hdup : (db.messages.find? (fun x => x.id == msg.id)).isSome) :
    (on_message cfg db msg).err = some .uniqueViolation ∧
    (on_message cfg db msg).db = db := by
  obtain ⟨a, hfind, hopt⟩ := ha
  simp [on_message, hg, hfind, hopt, hc, Message.create, hdup]

/-- Witness for C7: message id 100 is already stored in the example store. -/
theorem message_create_not_collision_tolerant_witness :
    (⟨100, some 1, 20, some 5, 3, 60⟩ : MessageEvent).guild = some cfgA.guild_id ∧
    (∃ a, User.get dbA.users 3 = some a ∧ a.opt_out = false) ∧
    (match (⟨100, some 1, 20, some 5, 3, 60⟩ : MessageEvent).channel_category with
     | some c => decide (c ∈ cfgA.ignore_categories)
     | none => false) = false ∧
    (dbA.messages.find? (fun x => x.id == 100)).isSome ∧
    ((on_message cfgA dbA ⟨100, some 1, 20, some 5, 3, 60⟩).err =
        some .uniqueViolation ∧
      (on_message cfgA dbA ⟨100, some 1, 20, some 5, 3, 60⟩).db = dbA) :=
  ⟨rfl, ⟨⟨3, "alice", some "av", some 10, 2, true, false, false⟩, rfl, rfl⟩,
   by decide, by decide,
   message_create_not_collision_tolerant cfgA dbA _ rfl
     ⟨⟨3, "alice", some "av", some 10, 2, true, false, false⟩, rfl, rfl⟩
     (by decide) (by decide)⟩

end Metricity
